import Mathlib

/-!
Shallow embedding of the Markdown→HTML static site generator core
(`src/node.py`): inline span parsing (`split_nodes_delimiter`,
`split_image_or_link_nodes`, `text_to_textnodes`), block classification
(`block_to_block_type`), block splitting (`markdown_to_blocks`), tree
construction (`markdown_to_html_node`) and HTML rendering (`to_html`).

Text is modelled as `List Char` (Python `str`).  Python exceptions are
modelled with `Except Err`; the `Err` constructors correspond one-to-one
to the `raise` sites of the source:
  * `unclosedSpan`         ↦ `ValueError("invalid markdown, formatted section not closed")`
  * `malformedLinkOrImage` ↦ `ValueError("invalid markdown")`
  * `tooManyHeadingMarkers`↦ `ValueError("Too many pound symbols for a heading")`
  * `missingValue`         ↦ `ValueError` in `LeafNode.to_html`
  * `missingTag`           ↦ `ValueError("No tag")` in `ParentNode.to_html`
  * `missingChildren`      ↦ `ValueError("No children")` in `ParentNode.to_html`
  * `indexError`           ↦ Python `IndexError` (`list_line.split(". ", 1)[1]`)
-/

abbrev Str := List Char

deriving instance DecidableEq for Except

/-- Python slice index normalisation: a negative index counts from the end,
and the result is clamped into `[0, n]`. -/
def pyIdx (n : Nat) (i : Int) : Nat :=
  if i < 0 then (max 0 ((n : Int) + i)).toNat else min i.toNat n

/-- Python slicing `s[a:b]` (with possibly negative bounds, clamped). -/
def pySlice (s : Str) (a b : Int) : Str :=
  let a' := pyIdx s.length a
  let b' := pyIdx s.length b
  (s.drop a').take (b' - a')

/-- Python indexing `s[i]` for an index that may be negative (counting from
the end).  Out-of-range accesses (which would raise in Python) return a
default character; all modelled accesses are in range. -/
def pyGetI (s : Str) (i : Int) : Char :=
  if i < 0 then s.getD ((s.length : Int) + i).toNat (Char.ofNat 0)
  else s.getD i.toNat (Char.ofNat 0)

/-- Python indexing `s[i]` for a nonnegative in-range index. -/
def pyGet (s : Str) (i : Nat) : Char := s.getD i (Char.ofNat 0)

/-- The set of characters removed by Python `str.strip()`. -/
def pySpace (c : Char) : Bool :=
  c = ' ' || c = '\t' || c = '\n' || c = '\r' || c = Char.ofNat 11 || c = Char.ofNat 12

/-- Python `str.strip()`: remove leading and trailing whitespace. -/
def pyStrip (s : Str) : Str :=
  ((s.dropWhile pySpace).reverse.dropWhile pySpace).reverse

/-- Fuel-driven worker for Python `str.split(sep)` with a non-empty
separator: leftmost, non-overlapping occurrences.  The fuel is always
instantiated with the length of the string, which suffices because every
recursive call consumes at least one character. -/
def splitAux (sep : Str) : Nat → Str → List Str
  | _, [] => [[]]
  | 0, s => [s]
  | fuel + 1, c :: rest =>
    if sep.isPrefixOf (c :: rest) then
      [] :: splitAux sep fuel (rest.drop (sep.length - 1))
    else
      match splitAux sep fuel rest with
      | [] => [[c]]
      | h :: t => (c :: h) :: t

/-- Python `s.split(sep)` for a non-empty separator. -/
def pySplit (sep s : Str) : List Str := splitAux sep s.length s

/-- Python `s.split(sep, 1)` restricted to the information the source uses:
`some (before, after)` at the first occurrence of `sep`, `none` when `sep`
does not occur (in which case the source's `[1]` raises `IndexError`). -/
def splitFirst (sep : Str) : Str → Option (Str × Str)
  | [] => if sep.isPrefixOf [] then some ([], []) else none
  | c :: rest =>
    if sep.isPrefixOf (c :: rest) then some ([], (c :: rest).drop sep.length)
    else (splitFirst sep rest).map (fun p => (c :: p.1, p.2))

/-- Does `sep` occur as a contiguous substring?  (Python `sep in s`.) -/
def containsSeq (sep : Str) : Str → Bool
  | [] => sep.isEmpty
  | c :: rest => sep.isPrefixOf (c :: rest) || containsSeq sep rest

/-- Decimal digits of a natural number, as characters (Python `f"{n}"`). -/
def natChars (n : Nat) : Str := Nat.toDigits 10 n

-- ===================== data model (node.py) =====================

/-- `TextType` enumeration of the source. -/
inductive TextType where
  | TEXT | BOLD_TEXT | ITALIC_TEXT | CODE_TEXT | LINK_TEXT | IMAGE_TEXT
deriving DecidableEq, Repr

/-- `Block_Type` enumeration of the source. -/
inductive Block_Type where
  | HEADING | CODE | QUOTE | ULIST | OLIST | PARAGRAPH
deriving DecidableEq, Repr

/-- `TextNode`: inline span with text, kind, and optional url. -/
structure TextNode where
  text : Str
  text_type : TextType
  url : Option Str := none
deriving DecidableEq, Repr

/-- Error kinds, one per `raise` site of the source (see the header). -/
inductive Err where
  | unclosedSpan | malformedLinkOrImage | tooManyHeadingMarkers
  | missingValue | missingTag | missingChildren | indexError
deriving DecidableEq, Repr

/-- `HTMLNode`: `leaf` models `LeafNode` (tag, value, props), `parent`
models `ParentNode` (tag, children, props).  Attribute mappings are
insertion-ordered association lists, like Python dicts. -/
inductive HTMLNode where
  | leaf (tag : Option Str) (value : Option Str) (props : Option (List (Str × Str)))
  | parent (tag : Option Str) (children : Option (List HTMLNode)) (props : Option (List (Str × Str)))
deriving Repr

-- ===================== inline parser (node.py) =====================

/-- `text_node_to_html_node`: span → leaf node.  A `None` url would be
rendered by Python's f-string as the text `None`; `pyStrOfOpt` reproduces
that observable behaviour for the stored attribute value. -/
def pyStrOfOpt : Option Str → Str
  | none => "None".toList
  | some s => s

def text_node_to_html_node (tn : TextNode) : HTMLNode :=
  match tn.text_type with
  | .TEXT => .leaf none (some tn.text) none
  | .BOLD_TEXT => .leaf (some ['b']) (some tn.text) none
  | .ITALIC_TEXT => .leaf (some ['i']) (some tn.text) none
  | .CODE_TEXT => .leaf (some "code".toList) (some tn.text) none
  | .LINK_TEXT => .leaf (some ['a']) (some tn.text) (some [("href".toList, pyStrOfOpt tn.url)])
  | .IMAGE_TEXT => .leaf (some "img".toList) (some [])
      (some [("src".toList, pyStrOfOpt tn.url), ("alt".toList, tn.text)])

/-- The inner `for i in range(len(split_text))` loop of
`split_nodes_delimiter`: empty pieces are skipped, even-indexed pieces
become plain spans, odd-indexed pieces get the stage's text type. -/
def piecesToNodes (tt : TextType) : Nat → List Str → List TextNode
  | _, [] => []
  | i, p :: ps =>
    (if p = [] then [] else [⟨p, if i % 2 = 0 then .TEXT else tt, none⟩])
      ++ piecesToNodes tt (i + 1) ps

/-- `split_nodes_delimiter`: split every still-plain node's text on the
delimiter; an even piece count means an unbalanced delimiter and raises. -/
def split_nodes_delimiter (old_nodes : List TextNode) (delimiter : Str) (tt : TextType) :
    Except Err (List TextNode) :=
  match old_nodes with
  | [] => .ok []
  | node :: rest =>
    if node.text_type = .TEXT then
      if (pySplit delimiter node.text).length % 2 = 0 then .error .unclosedSpan
      else
        match split_nodes_delimiter rest delimiter tt with
        | .error e => .error e
        | .ok tail => .ok (piecesToNodes tt 0 (pySplit delimiter node.text) ++ tail)
    else
      match split_nodes_delimiter rest delimiter tt with
      | .error e => .error e
      | .ok tail => .ok (node :: tail)

/-- Scanner state of the `while` loop in `split_image_or_link_nodes`;
field names follow the source's local variables. -/
structure ScanState where
  text_index : Nat
  start_index : Nat
  in_link_text : Bool
  in_link_url : Bool
  current_link_text : Str
  current_nodes : List TextNode
deriving Repr

/-- The image-opener test of the source, `node.text[text_index - 1] == "!"`:
at `text_index = 0` the Python index is `-1`, i.e. the LAST character. -/
def imageOpenerCheck (t : Str) (ti : Nat) : Bool :=
  pyGetI t ((ti : Int) - 1) = '!'

/-- One iteration of the scanner loop body (only ever applied when
`text_index < t.length`). -/
def scanStep (t : Str) (tt : TextType) (st : ScanState) : ScanState :=
  if st.in_link_text then
    if pyGet t st.text_index = ']' then
      { st with current_link_text := pySlice t st.start_index st.text_index,
                in_link_text := false, in_link_url := true,
                start_index := st.text_index + 2, text_index := st.text_index + 3 }
    else { st with text_index := st.text_index + 1 }
  else if st.in_link_url then
    if pyGet t st.text_index = ')' then
      { st with current_nodes := st.current_nodes ++
                  [⟨st.current_link_text, tt, some (pySlice t st.start_index st.text_index)⟩],
                in_link_url := false,
                start_index := st.text_index + 1, text_index := st.text_index + 1 }
    else { st with text_index := st.text_index + 1 }
  else
    if pyGet t st.text_index = '[' ∧ tt = .LINK_TEXT then
      { st with current_nodes := st.current_nodes ++
                  (if st.start_index ≠ st.text_index then
                    [⟨pySlice t st.start_index st.text_index, .TEXT, none⟩] else []),
                in_link_text := true,
                start_index := st.text_index + 1, text_index := st.text_index + 2 }
    else if pyGet t st.text_index = '[' ∧ tt = .IMAGE_TEXT then
      if imageOpenerCheck t st.text_index then
        { st with current_nodes := st.current_nodes ++
                    (if (st.text_index : Int) - (st.start_index : Int) > 1 then
                      [⟨pySlice t st.start_index ((st.text_index : Int) - 1), .TEXT, none⟩]
                     else []),
                  in_link_text := true,
                  start_index := st.text_index + 1, text_index := st.text_index + 2 }
      else { st with text_index := st.text_index + 1 }
    else { st with text_index := st.text_index + 1 }

/-- The scanner loop, fuel-driven; every step advances `text_index` by at
least one, so fuel `t.length` (from `text_index = 0`) runs it to the end. -/
def scanAux (t : Str) (tt : TextType) : Nat → ScanState → ScanState
  | 0, st => st
  | fuel + 1, st =>
    if st.text_index < t.length then scanAux t tt fuel (scanStep t tt st) else st

def initScan : ScanState := ⟨0, 0, false, false, [], []⟩

def runScan (t : Str) (tt : TextType) : ScanState := scanAux t tt t.length initScan

/-- Body of `split_image_or_link_nodes` for one plain node: run the
scanner, flush the trailing plain text, and raise if the scan ended while
reading a label or a url. -/
def splitOneFinish (t : Str) (st : ScanState) : Except Err (List TextNode) :=
  if st.in_link_text || st.in_link_url then .error .malformedLinkOrImage
  else .ok (st.current_nodes ++
    (if (st.text_index : Int) - (st.start_index : Int) > 0 then
      [⟨pySlice t st.start_index st.text_index, .TEXT, none⟩] else []))

def splitOneImageOrLink (t : Str) (tt : TextType) : Except Err (List TextNode) :=
  splitOneFinish t (runScan t tt)

/-- `split_image_or_link_nodes`: non-plain nodes pass through; plain nodes
are scanned for `[label](url)` / `![label](url)` spans. -/
def split_image_or_link_nodes (old_nodes : List TextNode) (tt : TextType) :
    Except Err (List TextNode) :=
  match old_nodes with
  | [] => .ok []
  | node :: rest =>
    if node.text_type ≠ .TEXT then
      match split_image_or_link_nodes rest tt with
      | .error e => .error e
      | .ok tail => .ok (node :: tail)
    else
      match splitOneImageOrLink node.text tt with
      | .error e => .error e
      | .ok cur =>
        match split_image_or_link_nodes rest tt with
        | .error e => .error e
        | .ok tail => .ok (cur ++ tail)

/-- `text_to_textnodes`: the five-stage inline pipeline in source order. -/
def text_to_textnodes (text : Str) : Except Err (List TextNode) :=
  match split_nodes_delimiter [⟨text, .TEXT, none⟩] ['*', '*'] .BOLD_TEXT with
  | .error e => .error e
  | .ok ns =>
  match split_nodes_delimiter ns ['_'] .ITALIC_TEXT with
  | .error e => .error e
  | .ok ns =>
  match split_nodes_delimiter ns ['`'] .CODE_TEXT with
  | .error e => .error e
  | .ok ns =>
  match split_image_or_link_nodes ns .IMAGE_TEXT with
  | .error e => .error e
  | .ok ns => split_image_or_link_nodes ns .LINK_TEXT

-- ===================== block classifier (node.py) =====================

/-- The tuple argument of `markdown_block.startswith(("# ", …, "###### "))`. -/
def headingPrefixes : List Str :=
  ["# ".toList, "## ".toList, "### ".toList, "#### ".toList,
   "##### ".toList, "###### ".toList]

/-- The quote loop: `PARAGRAPH` at the first line not starting with `>`. -/
def quoteLoop : List Str → Block_Type
  | [] => .QUOTE
  | line :: rest =>
    if (['>']).isPrefixOf line then quoteLoop rest else .PARAGRAPH

/-- The unordered-list loop. -/
def ulistLoop : List Str → Block_Type
  | [] => .ULIST
  | line :: rest =>
    if ("- ".toList).isPrefixOf line then ulistLoop rest else .PARAGRAPH

/-- The ordered-list loop: line `j` (0-based) must start with `f"{i+j}. "`. -/
def olistLoop : Nat → List Str → Block_Type
  | _, [] => .OLIST
  | i, line :: rest =>
    if (natChars i ++ ". ".toList).isPrefixOf line then olistLoop (i + 1) rest
    else .PARAGRAPH

/-- Body of `block_to_block_type`, over the block and its line list
(`blocks = markdown_block.split("\\n")`). -/
def blockTypeOf (markdown_block : Str) (blocks : List Str) : Block_Type :=
  if headingPrefixes.any (·.isPrefixOf markdown_block) then .HEADING
  else if blocks.length > 1 ∧ ("```".toList).isPrefixOf (blocks.headD [])
      ∧ ("```".toList).isPrefixOf (blocks.getLastD []) then .CODE
  else if (['>']).isPrefixOf markdown_block then quoteLoop blocks
  else if ("- ".toList).isPrefixOf markdown_block then ulistLoop blocks
  else if ("1. ".toList).isPrefixOf markdown_block then olistLoop 1 blocks
  else .PARAGRAPH

/-- `block_to_block_type`. -/
def block_to_block_type (markdown_block : Str) : Block_Type :=
  blockTypeOf markdown_block (pySplit ['\n'] markdown_block)

/-- `markdown_to_blocks`: split on `"\n\n"`, drop segments that are empty
BEFORE stripping, strip the rest. -/
def markdown_to_blocks (markdown : Str) : List Str :=
  (pySplit "\n\n".toList markdown).foldr
    (fun block acc => if block = [] then acc else pyStrip block :: acc) []

-- ===================== converter & renderer (node.py) =====================

/-- `props_to_html`: each attribute renders as a space then `key='value'`,
in insertion order; an absent mapping renders as the empty string. -/
def props_to_html : Option (List (Str × Str)) → Str
  | none => []
  | some ps => ps.foldl
      (fun result kv => result ++ [' '] ++ kv.1 ++ ['=', Char.ofNat 39] ++ kv.2 ++ [Char.ofNat 39]) []

mutual

/-- `to_html` of `LeafNode` / `ParentNode`. -/
def to_html : HTMLNode → Except Err Str
  | .leaf tag value props =>
    match value with
    | none => .error .missingValue
    | some v =>
      match tag with
      | none => .ok v
      | some tg => .ok (['<'] ++ tg ++ props_to_html props ++ ['>'] ++ v ++ ['<', '/'] ++ tg ++ ['>'])
  | .parent tag children props =>
    match tag with
    | none => .error .missingTag
    | some tg =>
      match children with
      | none => .error .missingChildren
      | some cs => do
        let inner ← to_html_children cs
        .ok (['<'] ++ tg ++ props_to_html props ++ ['>'] ++ inner ++ ['<', '/'] ++ tg ++ ['>'])

/-- The `for child in self.children` concatenation loop of `ParentNode.to_html`. -/
def to_html_children : List HTMLNode → Except Err Str
  | [] => .ok []
  | c :: cs => do
    let h ← to_html c
    let rest ← to_html_children cs
    .ok (h ++ rest)

end

/-- Converts a list of spans into leaf children (the per-block
`for node in text_nodes: child_nodes.append(...)` loops). -/
def spansToChildren (tns : List TextNode) : List HTMLNode :=
  tns.map text_node_to_html_node

/-- The heading-marker count: leading `#` characters of the block. -/
def leadingHashCount (block : Str) : Nat := (block.takeWhile (· = '#')).length

/-- The per-line body of the ordered-list branch:
`list_line.split(". ", 1)[1]` (raising `IndexError` when `". "` is absent),
then inline parsing, then an `li` parent. -/
def olistLineNode (list_line : Str) : Except Err HTMLNode := do
  match splitFirst ". ".toList list_line with
  | none => .error .indexError
  | some line_text => do
    let tns ← text_to_textnodes line_text.2
    .ok (.parent (some "li".toList) (some (spansToChildren tns)) none)

def olistLinesNodes : List Str → Except Err (List HTMLNode)
  | [] => .ok []
  | l :: ls => do
    let n ← olistLineNode l
    let rest ← olistLinesNodes ls
    .ok (n :: rest)

/-- The per-line body of the unordered-list branch: `list_line[2:]`, inline
parsing, an `li` parent. -/
def ulistLineNode (list_line : Str) : Except Err HTMLNode := do
  let tns ← text_to_textnodes (list_line.drop 2)
  .ok (.parent (some "li".toList) (some (spansToChildren tns)) none)

def ulistLinesNodes : List Str → Except Err (List HTMLNode)
  | [] => .ok []
  | l :: ls => do
    let n ← ulistLineNode l
    let rest ← ulistLinesNodes ls
    .ok (n :: rest)

/-- One iteration of the block loop of `markdown_to_html_node`: classify
the block and build its node (each branch appends exactly one node). -/
def blockToNode (block : Str) : Except Err HTMLNode :=
  match block_to_block_type block with
  | .HEADING => do
    let heading_count := leadingHashCount block
    if heading_count > 6 then .error .tooManyHeadingMarkers
    else do
      let tns ← text_to_textnodes (block.drop (heading_count + 1))
      .ok (.parent (some ('h' :: natChars heading_count)) (some (spansToChildren tns)) none)
  | .CODE =>
    let code_text := pySlice block 4 (-3)
    let child := text_node_to_html_node ⟨code_text, .TEXT, none⟩
    .ok (.parent (some "pre".toList)
          (some [.parent (some "code".toList) (some [child]) none]) none)
  | .QUOTE => do
    let lines := pySplit ['\n'] block
    let quote_text := List.intercalate [' '] (lines.map (·.drop 2))
    let tns ← text_to_textnodes quote_text
    .ok (.parent (some "blockquote".toList) (some (spansToChildren tns)) none)
  | .OLIST => do
    let items ← olistLinesNodes (pySplit ['\n'] block)
    .ok (.parent (some "ol".toList) (some items) none)
  | .ULIST => do
    let items ← ulistLinesNodes (pySplit ['\n'] block)
    .ok (.parent (some "ul".toList) (some items) none)
  | .PARAGRAPH => do
    let lines := pySplit ['\n'] block
    let paragraph_text := List.intercalate [' '] lines
    let tns ← text_to_textnodes paragraph_text
    .ok (.parent (some ['p']) (some (spansToChildren tns)) none)

def blocksToNodes : List Str → Except Err (List HTMLNode)
  | [] => .ok []
  | b :: bs => do
    let n ← blockToNode b
    let rest ← blocksToNodes bs
    .ok (n :: rest)

/-- `markdown_to_html_node`: split into blocks, build each block's node,
wrap everything in a root `div` parent. -/
def markdown_to_html_node (markdown : Str) : Except Err HTMLNode := do
  let block_nodes ← blocksToNodes (markdown_to_blocks markdown)
  .ok (.parent (some "div".toList) (some block_nodes) none)

/-- The composed pipeline: convert then render. -/
def convertRender (markdown : Str) : Except Err Str := do
  let node ← markdown_to_html_node markdown
  to_html node


-- ===================== general-purpose lemmas =====================

/-- Characters selected by `takeWhile` satisfy the predicate, position-wise. -/
theorem takeWhile_pred_getD (p : Char → Bool) (l : Str) (j : Nat) (d : Char)
    (h : j < (l.takeWhile p).length) : p (l.getD j d) = true := by
  induction l generalizing j with
  | nil => simp [List.takeWhile] at h
  | cons c rest ih =>
    by_cases hc : p c
    · cases j with
      | zero => simpa [List.getD]
      | succ j' =>
        simp only [List.takeWhile, hc] at h
        simp only [List.length_cons, Nat.add_lt_add_iff_right] at h
        simpa [List.getD] using ih j' h
    · simp [List.takeWhile, hc] at h

/-- A prefix agrees with the larger list at every position below its length. -/
theorem isPrefixOf_agree (pr l : Str) (j : Nat) (d : Char)
    (hp : pr.isPrefixOf l = true) (hj : j < pr.length) : l.getD j d = pr.getD j d := by
  induction pr generalizing l j with
  | nil => simp at hj
  | cons a pr' ih =>
    cases l with
    | nil => simp [List.isPrefixOf] at hp
    | cons b l' =>
      simp only [List.isPrefixOf, Bool.and_eq_true, beq_iff_eq] at hp
      cases j with
      | zero => simp [List.getD, hp.1]
      | succ j' =>
        simp only [List.length_cons, Nat.add_lt_add_iff_right] at hj
        simpa [List.getD] using ih l' j' hp.2 hj

/-- The quote loop only ever classifies as quote or paragraph. -/
theorem quoteLoop_quote_or_paragraph (ls : List Str) :
    quoteLoop ls = .QUOTE ∨ quoteLoop ls = .PARAGRAPH := by
  induction ls with
  | nil => left; rfl
  | cons l rest ih =>
    simp only [quoteLoop]
    split
    · exact ih
    · right; rfl

/-- The unordered-list loop only ever classifies as ulist or paragraph. -/
theorem ulistLoop_ulist_or_paragraph (ls : List Str) :
    ulistLoop ls = .ULIST ∨ ulistLoop ls = .PARAGRAPH := by
  induction ls with
  | nil => left; rfl
  | cons l rest ih =>
    simp only [ulistLoop]
    split
    · exact ih
    · right; rfl

/-- The ordered-list loop only ever classifies as olist or paragraph. -/
theorem olistLoop_olist_or_paragraph (i : Nat) (ls : List Str) :
    olistLoop i ls = .OLIST ∨ olistLoop i ls = .PARAGRAPH := by
  induction ls generalizing i with
  | nil => left; rfl
  | cons l rest ih =>
    simp only [olistLoop]
    split
    · exact ih (i + 1)
    · right; rfl

/-- A single heading-prefix test fails when the block has `#` at every
position up to 6 and the candidate prefix has a space at position `k ≤ 6`. -/
theorem heading_prefix_fails (b : Str) (hhash : ∀ j : Nat, j ≤ 6 → b.getD j ' ' = '#')
    (pr : Str) (k : Nat) (hk : k ≤ 6) (hlen : k < pr.length)
    (hsp : pr.getD k ' ' = ' ') : pr.isPrefixOf b = false := by
  rw [Bool.eq_false_iff]
  intro hp
  have hb : b.getD k ' ' = ' ' := (isPrefixOf_agree pr b k ' ' hp hlen).trans hsp
  have := hhash k hk
  rw [hb] at this
  exact absurd this (by decide)

/-- A block with more than six leading `#` characters matches none of the
heading prefixes, so it is never classified `HEADING`. -/
theorem many_hashes_not_heading (b : Str) (h : 6 < leadingHashCount b) :
    block_to_block_type b ≠ .HEADING := by
  have hhash : ∀ j : Nat, j ≤ 6 → b.getD j ' ' = '#' := by
    intro j hj
    have hj' : j < (b.takeWhile (· = '#')).length := lt_of_le_of_lt hj h
    simpa using takeWhile_pred_getD (· = '#') b j ' ' hj'
  have h1 := heading_prefix_fails b hhash "# ".toList 1 (by decide) (by decide) (by decide)
  have h2 := heading_prefix_fails b hhash "## ".toList 2 (by decide) (by decide) (by decide)
  have h3 := heading_prefix_fails b hhash "### ".toList 3 (by decide) (by decide) (by decide)
  have h4 := heading_prefix_fails b hhash "#### ".toList 4 (by decide) (by decide) (by decide)
  have h5 := heading_prefix_fails b hhash "##### ".toList 5 (by decide) (by decide) (by decide)
  have h6 := heading_prefix_fails b hhash "###### ".toList 6 (by decide) (by decide) (by decide)
  have hguard : headingPrefixes.any (·.isPrefixOf b) = false := by
    simp only [headingPrefixes, List.any_cons, List.any_nil, Bool.or_eq_false_iff]
    exact ⟨h1, h2, h3, h4, h5, h6, trivial⟩
  unfold block_to_block_type blockTypeOf
  rw [if_neg (by rw [hguard]; exact Bool.false_ne_true)]
  split
  · simp
  · split
    · rcases quoteLoop_quote_or_paragraph (pySplit ['\n'] b) with hq | hq <;> simp [hq]
    · split
      · rcases ulistLoop_ulist_or_paragraph (pySplit ['\n'] b) with hu | hu <;> simp [hu]
      · split
        · rcases olistLoop_olist_or_paragraph 1 (pySplit ['\n'] b) with ho | ho <;> simp [ho]
        · simp

-- ===================== claim theorems (concrete / light) =====================

/-- C6: converting the document `"# Title\n\nSome text"` and rendering the
resulting tree yields exactly `"<div><h1>Title</h1><p>Some text</p></div>"`. -/
theorem c6_minimal_roundtrip :
    convertRender "# Title\n\nSome text".toList =
      .ok "<div><h1>Title</h1><p>Some text</p></div>".toList := by decide

/-- C8: `text_to_textnodes "![alt](u)"` yields exactly one span, an image
span with text `"alt"` and url `"u"` (so never a link span, and the `!` is
not emitted as preceding plain text). -/
theorem c8_image_precedence :
    text_to_textnodes "![alt](u)".toList =
      .ok [⟨"alt".toList, .IMAGE_TEXT, some ['u']⟩] := by decide

/-- C10: the composed convert-then-render pipeline is deterministic — its
output is a function of the input document alone, so two calls on the same
document yield identical results (the embedding is pure, mirroring the
absence of module-level mutable state in the source). -/
theorem c10_pipeline_deterministic :
    ∀ md₁ md₂ : Str, md₁ = md₂ → convertRender md₁ = convertRender md₂ := by
  intro _ _ h
  rw [h]

/-- Witness for C10 at a concrete document. -/
theorem c10_pipeline_deterministic_witness :
    convertRender "x".toList = convertRender "x".toList ∧
      convertRender "x".toList = .ok "<div><p>x</p></div>".toList :=
  ⟨c10_pipeline_deterministic "x".toList "x".toList rfl, by decide⟩

/-- C7: for a plain span and any of the three stage delimiters,
`split_nodes_delimiter` raises `UnclosedSpan` exactly when splitting the
text on the delimiter gives an even number of pieces; and
`text_to_textnodes "This is **broken"` raises `UnclosedSpan`. -/
theorem c7_unclosed_span :
    (∀ (t d : Str) (tt : TextType),
        (d, tt) ∈ ([(['*', '*'], TextType.BOLD_TEXT), (['_'], .ITALIC_TEXT),
                    (['`'], .CODE_TEXT)] : List (Str × TextType)) →
        (split_nodes_delimiter [⟨t, .TEXT, none⟩] d tt = .error .unclosedSpan ↔
          (pySplit d t).length % 2 = 0)) ∧
    text_to_textnodes "This is **broken".toList = .error .unclosedSpan := by
  refine ⟨?_, by decide⟩
  intro t d tt _
  by_cases hp : (pySplit d t).length % 2 = 0 <;>
    simp [split_nodes_delimiter, hp]

/-- Witness for C7: an unbalanced bold delimiter raises. -/
theorem c7_unclosed_span_witness :
    split_nodes_delimiter [⟨"**x".toList, .TEXT, none⟩] ['*', '*'] .BOLD_TEXT =
      .error .unclosedSpan :=
  (c7_unclosed_span.1 "**x".toList ['*', '*'] .BOLD_TEXT (by decide)).mpr (by decide)

/-- C1 counterexample: the block `"####### too many"` does NOT raise during
conversion — it is classified as a paragraph and converts successfully. -/
theorem c1_heading_overflow_counterexample :
    markdown_to_html_node "####### too many".toList =
      .ok (.parent (some "div".toList)
        (some [.parent (some ['p'])
          (some [.leaf none (some "####### too many".toList) none]) none])
        none) := rfl

/-- C1 amended: a block with more than six leading `#` characters is never
classified as a heading (the classifier's prefixes stop at six), so the
converter's too-many-markers error is unreachable; such a block falls
through to a paragraph and conversion succeeds, as on `"####### too many"`. -/
theorem c1_heading_overflow :
    (∀ b : Str, 6 < leadingHashCount b → block_to_block_type b ≠ .HEADING) ∧
    markdown_to_html_node "####### too many".toList =
      .ok (.parent (some "div".toList)
        (some [.parent (some ['p'])
          (some [.leaf none (some "####### too many".toList) none]) none])
        none) :=
  ⟨many_hashes_not_heading, rfl⟩

/-- Witness for C1's amended statement at the spec's own example block. -/
theorem c1_heading_overflow_witness :
    block_to_block_type "####### too many".toList ≠ .HEADING :=
  c1_heading_overflow.1 "####### too many".toList (by decide)

/-- C5: the image-opener test at text index 0 reads `node.text[-1]`, the
LAST character of the string, so any string ending in `'!'` passes it at
index 0; consequently `"[a](u)"` followed by `"!"` parses as an image span
`(text "a", url "u")` followed by plain `"!"`, not as a link. -/
theorem c5_wraparound_image_opener :
    (∀ t : Str, t.getLast? = some '!' → imageOpenerCheck t 0 = true) ∧
    text_to_textnodes "[a](u)!".toList =
      .ok [⟨['a'], .IMAGE_TEXT, some ['u']⟩, ⟨['!'], .TEXT, none⟩] := by
  refine ⟨?_, by decide⟩
  intro t hlast
  have hne : t ≠ [] := by
    intro h
    rw [h] at hlast
    simp at hlast
  have hlen : 1 ≤ t.length := by
    cases t with
    | nil => exact absurd rfl hne
    | cons a l => simp
  simp only [imageOpenerCheck, pyGetI]
  norm_num
  have hidx : ((t.length : Int) + -1).toNat = t.length - 1 := by omega
  rw [hidx, ← List.getLast?_eq_getElem?, hlast]
  rfl

/-- Witness for C5 at the concrete input `"[a](u)!"`. -/
theorem c5_wraparound_image_opener_witness :
    imageOpenerCheck "[a](u)!".toList 0 = true :=
  c5_wraparound_image_opener.1 "[a](u)!".toList (by decide)

/-- C2 counterexample: in `"[a]x(u)"` the opener's `]` is followed by `x`,
not `(`, yet the link stage emits a link span (url `"(u"`) and no error —
the character after `]` is skipped without being checked. -/
theorem c2_malformed_counterexample :
    split_image_or_link_nodes [⟨"[a]x(u)".toList, .TEXT, none⟩] .LINK_TEXT =
      .ok [⟨['a'], .LINK_TEXT, some "(u".toList⟩] := by decide

/-- C3 counterexample: the empty string contains no delimiter characters,
but `text_to_textnodes` returns zero spans for it, not one plain span. -/
theorem c3_plain_counterexample :
    text_to_textnodes ([] : Str) = .ok ([] : List TextNode) := by decide

/-- C4 counterexample: the whitespace-only segment of `"a\n\n \n\nb"` is
not discarded — it is kept and stripped to the empty-string block. -/
theorem c4_blocks_counterexample :
    markdown_to_blocks "a\n\n \n\nb".toList = [['a'], ([] : Str), ['b']] := by decide

-- ===================== C3: plain text passes through =====================

/-- Splitting on a separator that does not occur returns the whole string. -/
theorem splitAux_no_occurrence (sep : Str) (fuel : Nat) (s : Str)
    (hocc : containsSeq sep s = false) : splitAux sep fuel s = [s] := by
  induction fuel generalizing s with
  | zero => cases s <;> rfl
  | succ fuel ih =>
    cases s with
    | nil => rfl
    | cons c rest =>
      simp only [containsSeq, Bool.or_eq_false_iff] at hocc
      simp only [splitAux, hocc.1, Bool.false_eq_true, if_false]
      rw [ih rest hocc.2]

/-- `pySplit` on a separator that does not occur returns the whole string. -/
theorem pySplit_no_occurrence (sep s : Str) (hocc : containsSeq sep s = false) :
    pySplit sep s = [s] :=
  splitAux_no_occurrence sep s.length s hocc

/-- A single-character separator occurs iff the character is a member. -/
theorem containsSeq_single (c : Char) (s : Str) :
    containsSeq [c] s = false ↔ c ∉ s := by
  induction s with
  | nil => simp [containsSeq]
  | cons a r ih =>
    simp only [containsSeq, List.isPrefixOf, Bool.or_eq_false_iff, Bool.and_eq_false_iff,
      List.mem_cons]
    constructor
    · rintro ⟨h1, h2⟩ hmem
      rcases hmem with hmem | hmem
      · rcases h1 with h1 | h1
        · exact absurd (beq_iff_eq.mpr hmem) (by rw [h1]; exact Bool.false_ne_true)
        · simp [List.isPrefixOf] at h1
      · exact (ih.mp h2) hmem
    · intro h
      push_neg at h
      refine ⟨Or.inl ?_, ih.mpr h.2⟩
      rw [Bool.eq_false_iff]
      intro hbeq
      exact h.1 (beq_iff_eq.mp hbeq)

/-- In-range positions of a list the character is absent from never hold it. -/
theorem not_mem_pyGet_ne (c : Char) (t : Str) (hmem : c ∉ t) (j : Nat)
    (hj : j < t.length) : pyGet t j ≠ c := by
  rw [pyGet, List.getD_eq_getElem t (Char.ofNat 0) hj]
  intro h
  exact hmem (h ▸ List.getElem_mem hj)

/-- The whole-string Python slice. -/
theorem pySlice_full (t : Str) : pySlice t 0 (t.length : Int) = t := by
  have h0 : pyIdx t.length 0 = 0 := by simp [pyIdx]
  have h1 : pyIdx t.length (t.length : Int) = t.length := by
    rw [pyIdx, if_neg (by omega)]
    omega
  simp [pySlice, h0, h1]

/-- With no `[` in the text, the scanner just walks to the end of the
string without changing any other state component. -/
theorem scanAux_no_bracket (t : Str) (tt : TextType) (fuel : Nat) (st : ScanState)
    (h1 : st.in_link_text = false) (h2 : st.in_link_url = false)
    (hnb : ∀ j, j < t.length → pyGet t j ≠ '[')
    (hfuel : t.length ≤ st.text_index + fuel) :
    scanAux t tt fuel st = { st with text_index := max st.text_index t.length } := by
  induction fuel generalizing st with
  | zero =>
    have : max st.text_index t.length = st.text_index := by omega
    rw [this]
    rfl
  | succ fuel ih =>
    by_cases hti : st.text_index < t.length
    · have hchar : pyGet t st.text_index ≠ '[' := hnb st.text_index hti
      have hstep : scanStep t tt st = { st with text_index := st.text_index + 1 } := by
        simp [scanStep, h1, h2, hchar]
      rw [scanAux, if_pos hti, hstep]
      have := ih { st with text_index := st.text_index + 1 } h1 h2 (by simp; omega)
      rw [this]
      have hmax1 : max (st.text_index + 1) t.length = t.length := by omega
      have hmax2 : max st.text_index t.length = t.length := by omega
      rw [hmax1, hmax2]
    · rw [scanAux, if_neg hti]
      have : max st.text_index t.length = st.text_index := by omega
      rw [this]

/-- With no `[` and a non-empty text, the image/link scan of one plain node
returns exactly that node. -/
theorem splitOne_no_bracket (t : Str) (tt : TextType) (hne : t ≠ [])
    (hmem : '[' ∉ t) :
    splitOneImageOrLink t tt = .ok [⟨t, .TEXT, none⟩] := by
  have hlen : 0 < t.length := List.length_pos.mpr hne
  have hscan := scanAux_no_bracket t tt t.length initScan rfl rfl
    (fun j hj => not_mem_pyGet_ne '[' t hmem j hj) (by simp [initScan])
  rw [splitOneImageOrLink, runScan, hscan]
  simp only [initScan]
  have hmax : max 0 t.length = t.length := by omega
  rw [hmax, splitOneFinish]
  simp only [Bool.or_self, Bool.false_eq_true, if_false]
  have hpos : ((t.length : Int) - ((0 : Nat) : Int) > 0) := by
    simp
    omega
  rw [if_pos hpos]
  simp [pySlice_full]

/-- A plain node whose text avoids the delimiter passes a delimiter stage
unchanged. -/
theorem split_nodes_delimiter_plain (s d : Str) (tt : TextType)
    (hocc : containsSeq d s = false) (hne : s ≠ []) :
    split_nodes_delimiter [⟨s, .TEXT, none⟩] d tt = .ok [⟨s, .TEXT, none⟩] := by
  have hs : pySplit d s = [s] := pySplit_no_occurrence d s hocc
  simp [split_nodes_delimiter, hs, piecesToNodes, hne]

/-- A plain node with no `[` passes an image/link stage unchanged. -/
theorem split_image_or_link_nodes_plain (s : Str) (tt : TextType)
    (hne : s ≠ []) (hmem : '[' ∉ s) :
    split_image_or_link_nodes [⟨s, .TEXT, none⟩] tt = .ok [⟨s, .TEXT, none⟩] := by
  rw [split_image_or_link_nodes]
  simp only [ne_eq, reduceCtorEq, not_false_eq_true, not_true_eq_false, if_false, if_true]
  rw [splitOne_no_bracket s tt hne hmem]
  rfl

/-- C3: a NON-EMPTY string containing none of the delimiters (`**`, `_`,
`` ` ``, `[`) parses to exactly one plain span equal to itself; the empty
string parses to zero spans (the empty piece is dropped). -/
theorem c3_plain_passthrough :
    (∀ s : Str, s ≠ [] → containsSeq ['*', '*'] s = false → '_' ∉ s → '`' ∉ s →
      '[' ∉ s → text_to_textnodes s = .ok [⟨s, .TEXT, none⟩]) ∧
    text_to_textnodes ([] : Str) = .ok ([] : List TextNode) := by
  refine ⟨?_, by decide⟩
  intro s hne hbold hital hcode hbr
  have h1 := split_nodes_delimiter_plain s ['*', '*'] .BOLD_TEXT hbold hne
  have h2 := split_nodes_delimiter_plain s ['_'] .ITALIC_TEXT
    ((containsSeq_single '_' s).mpr hital) hne
  have h3 := split_nodes_delimiter_plain s ['`'] .CODE_TEXT
    ((containsSeq_single '`' s).mpr hcode) hne
  have h4 := split_image_or_link_nodes_plain s .IMAGE_TEXT hne hbr
  have h5 := split_image_or_link_nodes_plain s .LINK_TEXT hne hbr
  simp only [text_to_textnodes, h1, h2, h3, h4, h5]

/-- Witness for C3 at the concrete input `"hello!"`. -/
theorem c3_plain_passthrough_witness :
    text_to_textnodes "hello!".toList = .ok [⟨"hello!".toList, .TEXT, none⟩] :=
  c3_plain_passthrough.1 "hello!".toList (by decide) (by decide) (by decide)
    (by decide) (by decide)

-- ===================== C4: block splitting =====================

/-- C4 amended: every block returned by `markdown_to_blocks` is the trim of
a segment that was non-empty BEFORE trimming (only pre-trim-empty segments
are discarded); a whitespace-only segment is kept and becomes the
empty-string block, as on `"a\n\n \n\nb"`. -/
theorem c4_blocks_from_segments :
    (∀ md b : Str, b ∈ markdown_to_blocks md →
      ∃ seg, seg ∈ pySplit "\n\n".toList md ∧ seg ≠ [] ∧ b = pyStrip seg) ∧
    markdown_to_blocks "a\n\n \n\nb".toList = [['a'], ([] : Str), ['b']] := by
  refine ⟨?_, by decide⟩
  intro md b hb
  rw [markdown_to_blocks] at hb
  generalize pySplit "\n\n".toList md = L at hb ⊢
  induction L with
  | nil => simp at hb
  | cons sgl L ih =>
    simp only [List.foldr_cons] at hb
    by_cases hs : sgl = []
    · rw [if_pos hs] at hb
      obtain ⟨seg, hmem, hprop⟩ := ih hb
      exact ⟨seg, List.mem_cons_of_mem _ hmem, hprop⟩
    · rw [if_neg hs] at hb
      rcases List.mem_cons.mp hb with hEq | hb'
      · exact ⟨sgl, List.mem_cons_self _ _, hs, hEq⟩
      · obtain ⟨seg, hmem, hprop⟩ := ih hb'
        exact ⟨seg, List.mem_cons_of_mem _ hmem, hprop⟩

/-- Witness for C4: the empty block of `"a\n\n \n\nb"` comes from the
whitespace-only segment, which was non-empty before trimming. -/
theorem c4_blocks_from_segments_witness :
    ∃ seg, seg ∈ pySplit "\n\n".toList "a\n\n \n\nb".toList ∧ seg ≠ [] ∧
      ([] : Str) = pyStrip seg :=
  c4_blocks_from_segments.1 "a\n\n \n\nb".toList [] (by decide)

-- ===================== C9: ordered-list classification =====================

/-- Follows the spec's words for ordered lists: the lines are numbered
sequentially starting at 1 (`"1. "`, `"2. "`, …) with no gaps. -/
def specSequentiallyNumbered (lines : List Str) : Prop :=
  ∀ j : Nat, (h : j < lines.length) →
    (natChars (j + 1) ++ ". ".toList).isPrefixOf lines[j] = true

/-- The ordered-list loop succeeds iff every line carries the expected
sequential prefix, counting from the loop's start index. -/
theorem olistLoop_iff (ls : List Str) (i : Nat) :
    olistLoop i ls = .OLIST ↔
      (∀ j : Nat, (h : j < ls.length) →
        (natChars (i + j) ++ ". ".toList).isPrefixOf ls[j] = true) := by
  induction ls generalizing i with
  | nil => simp [olistLoop]
  | cons l rest ih =>
    simp only [olistLoop]
    by_cases hp : (natChars i ++ ". ".toList).isPrefixOf l = true
    · rw [if_pos hp, ih (i + 1)]
      constructor
      · intro hAll j hj
        cases j with
        | zero => simpa using hp
        | succ j' =>
          have hj' : j' < rest.length := by simpa using hj
          have := hAll j' hj'
          simpa [Nat.add_assoc, Nat.add_comm 1 j'] using this
      · intro hAll j hj
        have := hAll (j + 1) (by simpa using Nat.succ_lt_succ hj)
        simpa [Nat.add_assoc, Nat.add_comm 1 j] using this
    · rw [if_neg hp]
      constructor
      · intro h
        exact absurd h (by decide)
      · intro hAll
        have h00 := hAll 0 (by simp)
        rw [Nat.add_zero, List.getElem_cons_zero] at h00
        exact absurd h00 hp

/-- String splitting never returns an empty list of pieces. -/
theorem splitAux_ne_nil (sep : Str) (fuel : Nat) (s : Str) :
    splitAux sep fuel s ≠ [] := by
  induction fuel generalizing s with
  | zero => cases s <;> simp [splitAux]
  | succ fuel ih =>
    cases s with
    | nil => simp [splitAux]
    | cons c rest =>
      simp only [splitAux]
      split
      · simp
      · cases hm : splitAux sep fuel rest with
        | nil => exact absurd hm (ih rest)
        | cons h t => simp

/-- The input starts with the first piece of its own splitting. -/
theorem splitAux_head_append (sep : Str) (fuel : Nat) (s : Str) :
    ∃ r, s = (splitAux sep fuel s).headD [] ++ r := by
  induction fuel generalizing s with
  | zero =>
    cases s with
    | nil => exact ⟨[], rfl⟩
    | cons c rest => exact ⟨[], by simp [splitAux]⟩
  | succ fuel ih =>
    cases s with
    | nil => exact ⟨[], rfl⟩
    | cons c rest =>
      simp only [splitAux]
      by_cases hp : sep.isPrefixOf (c :: rest) = true
      · rw [if_pos hp]
        exact ⟨c :: rest, rfl⟩
      · rw [if_neg hp]
        cases hm : splitAux sep fuel rest with
        | nil => exact absurd hm (splitAux_ne_nil sep fuel rest)
        | cons h t =>
          obtain ⟨r, hr⟩ := ih rest
          rw [hm] at hr
          exact ⟨r, by simp [hr]⟩

/-- The input starts with the first piece of `pySplit`. -/
theorem pySplit_head_append (sep s : Str) :
    ∃ r, s = (pySplit sep s).headD [] ++ r :=
  splitAux_head_append sep s.length s

/-- C9: `block_to_block_type` returns `OLIST` exactly when every line `j`
of the block starts with `f"{j+1}. "` (sequential numbering from 1, no
gaps); `"1. a\n2. b"` is an ordered list, `"1. a\n3. b"` a paragraph. -/
theorem c9_olist_classification :
    (∀ b : Str, block_to_block_type b = .OLIST ↔
      specSequentiallyNumbered (pySplit ['\n'] b)) ∧
    block_to_block_type "1. a\n2. b".toList = .OLIST ∧
    block_to_block_type "1. a\n3. b".toList = .PARAGRAPH := by
  refine ⟨?_, by decide, by decide⟩
  intro b
  constructor
  · intro h
    unfold block_to_block_type blockTypeOf at h
    split_ifs at h with h1 h2 h3 h4 h5
    · rcases quoteLoop_quote_or_paragraph (pySplit ['\n'] b) with hq | hq <;>
        rw [hq] at h <;> exact absurd h (by decide)
    · rcases ulistLoop_ulist_or_paragraph (pySplit ['\n'] b) with hu | hu <;>
        rw [hu] at h <;> exact absurd h (by decide)
    · intro j hj
      have := (olistLoop_iff (pySplit ['\n'] b) 1).mp h j hj
      simpa [Nat.add_comm 1 j] using this
  · intro hspec
    have hne : pySplit ['\n'] b ≠ [] := splitAux_ne_nil ['\n'] b.length b
    obtain ⟨l0, restL, hL⟩ : ∃ l0 restL, pySplit ['\n'] b = l0 :: restL := by
      cases hM : pySplit ['\n'] b with
      | nil => exact absurd hM hne
      | cons x xs => exact ⟨x, xs, rfl⟩
    have hlen0 : 0 < (pySplit ['\n'] b).length := by rw [hL]; simp
    have hnat1 : (natChars (0 + 1) ++ ". ".toList : Str) = "1. ".toList := by decide
    have h00 : ("1. ".toList : Str).isPrefixOf l0 = true := by
      have hx := hspec 0 hlen0
      rw [hnat1] at hx
      simp only [hL, List.getElem_cons_zero] at hx
      exact hx
    obtain ⟨u, hu⟩ : ∃ u, ("1. ".toList : Str) ++ u = l0 :=
      List.isPrefixOf_iff_prefix.mp h00
    have hhead : (pySplit ['\n'] b).headD [] = l0 := by rw [hL]; rfl
    obtain ⟨r, hr⟩ := pySplit_head_append ['\n'] b
    rw [hhead] at hr
    have hb : b = '1' :: '.' :: ' ' :: (u ++ r) := by rw [hr, ← hu]; rfl
    have hH : headingPrefixes.any (·.isPrefixOf b) = false := by rw [hb]; rfl
    have hQ : (['>'] : Str).isPrefixOf b = false := by rw [hb]; rfl
    have hU : ("- ".toList : Str).isPrefixOf b = false := by rw [hb]; rfl
    have hO : ("1. ".toList : Str).isPrefixOf b = true :=
      List.isPrefixOf_iff_prefix.mpr ⟨u ++ r, by rw [hb]; rfl⟩
    have hC : ¬((pySplit ['\n'] b).length > 1 ∧
        ("```".toList : Str).isPrefixOf ((pySplit ['\n'] b).headD []) = true ∧
        ("```".toList : Str).isPrefixOf ((pySplit ['\n'] b).getLastD []) = true) := by
      rintro ⟨-, hc, -⟩
      rw [hhead, ← hu] at hc
      have hfalse : ("```".toList : Str).isPrefixOf ("1. ".toList ++ u) = false := rfl
      rw [hfalse] at hc
      exact Bool.false_ne_true hc
    unfold block_to_block_type blockTypeOf
    rw [if_neg (by rw [hH]; exact Bool.false_ne_true)]
    rw [if_neg hC]
    rw [if_neg (by rw [hQ]; exact Bool.false_ne_true)]
    rw [if_neg (by rw [hU]; exact Bool.false_ne_true)]
    rw [if_pos hO]
    refine (olistLoop_iff (pySplit ['\n'] b) 1).mpr ?_
    intro j hj
    have := hspec j hj
    simpa [Nat.add_comm 1 j] using this

/-- Witness for C9's equivalence at a concrete three-line block. -/
theorem c9_olist_classification_witness :
    specSequentiallyNumbered (pySplit ['\n'] "1. a\n2. b\n3. c".toList) :=
  (c9_olist_classification.1 "1. a\n2. b\n3. c".toList).mp (by decide)

-- ===================== C2: malformed link/image characterization =====================

/-- First index `j ≥ i` (within the given fuel) satisfying `f`. -/
def firstIdxFrom (f : Nat → Bool) : Nat → Nat → Option Nat
  | 0, _ => none
  | fuel + 1, i => if f i then some i else firstIdxFrom f fuel (i + 1)

/-- First index `j` with `i ≤ j < len` satisfying `f`. -/
def scanFind (f : Nat → Bool) (len i : Nat) : Option Nat :=
  firstIdxFrom f (len - i) i

/-- Whether the scanner's scanning state treats position `j` as an opener:
any `[` for the link stage; a `[` whose preceding character (cyclically,
`node.text[j-1]`) is `!` for the image stage. -/
def isOpenerAt (tt : TextType) (t : Str) (j : Nat) : Bool :=
  if pyGet t j = '[' then
    if tt = .LINK_TEXT then true
    else if tt = .IMAGE_TEXT then imageOpenerCheck t j
    else false
  else false

/-- Follows the amended claim's words: scanning from index `i`, some opener
is left unterminated — it has no `]` at index ≥ opener+2, or that `]` has
no `)` at index ≥ `]`+3 (the character right after `]` is skipped without
being compared with `(`). -/
def unterminatedFrom (tt : TextType) (t : Str) : Nat → Nat → Bool
  | 0, _ => false
  | fuel + 1, i =>
    match scanFind (isOpenerAt tt t) t.length i with
    | none => false
    | some p =>
      match scanFind (fun j => decide (pyGet t j = ']')) t.length (p + 2) with
      | none => true
      | some j =>
        match scanFind (fun k => decide (pyGet t k = ')')) t.length (j + 3) with
        | none => true
        | some k => unterminatedFrom tt t fuel (k + 1)

/-- Spec-side characterization of the malformed-link/image condition. -/
def hasUnterminatedOpener (tt : TextType) (t : Str) : Bool :=
  unterminatedFrom tt t (t.length + 1) 0

/-- The flag pair whose disjunction triggers the `invalid markdown` raise. -/
def erFlag (st : ScanState) : Bool := st.in_link_text || st.in_link_url

/-- Canonical scanning-state (control fields only matter for the flags). -/
def stScan (i : Nat) : ScanState := ⟨i, 0, false, false, [], []⟩

/-- Canonical reading-label state. -/
def stLabel (i : Nat) : ScanState := ⟨i, 0, true, false, [], []⟩

/-- Canonical reading-url state. -/
def stUrl (i : Nat) : ScanState := ⟨i, 0, false, true, [], []⟩

theorem scanAux_zero (t : Str) (tt : TextType) (st : ScanState) :
    scanAux t tt 0 st = st := rfl

theorem scanAux_succ (t : Str) (tt : TextType) (fuel : Nat) (st : ScanState) :
    scanAux t tt (fuel + 1) st =
      if st.text_index < t.length then scanAux t tt fuel (scanStep t tt st) else st := rfl

/-- Every scanner step strictly advances the text index. -/
theorem scanStep_ti_lt (t : Str) (tt : TextType) (st : ScanState) :
    st.text_index < (scanStep t tt st).text_index := by
  unfold scanStep
  split_ifs <;> simp

/-- A found index is at or after the start of the search. -/
theorem firstIdxFrom_ge (f : Nat → Bool) (fuel : Nat) :
    ∀ i j, firstIdxFrom f fuel i = some j → i ≤ j := by
  induction fuel with
  | zero => intro i j h; exact absurd h (by simp [firstIdxFrom])
  | succ fuel ih =>
    intro i j h
    rw [firstIdxFrom] at h
    by_cases hf : f i = true
    · rw [if_pos hf] at h
      injection h with h'
      omega
    · rw [if_neg hf] at h
      have := ih (i + 1) j h
      omega

theorem scanFind_ge (f : Nat → Bool) (len i j : Nat) (h : scanFind f len i = some j) :
    i ≤ j := firstIdxFrom_ge f (len - i) i j h

/-- Out of range, the search finds nothing. -/
theorem scanFind_none (f : Nat → Bool) (len i : Nat) (h : len ≤ i) :
    scanFind f len i = none := by
  unfold scanFind
  have : len - i = 0 := by omega
  rw [this]
  rfl

/-- One step of the search within range. -/
theorem scanFind_step (f : Nat → Bool) (len i : Nat) (h : i < len) :
    scanFind f len i = if f i then some i else scanFind f len (i + 1) := by
  unfold scanFind
  have h1 : len - i = (len - (i + 1)) + 1 := by omega
  rw [h1]
  rfl

/-- The scanner result does not depend on the fuel, once the fuel covers
the remaining distance to the end of the text. -/
theorem scanAux_fuel_eq (t : Str) (tt : TextType) :
    ∀ fuel1 fuel2 (st : ScanState), t.length ≤ st.text_index + fuel1 →
      t.length ≤ st.text_index + fuel2 →
      scanAux t tt fuel1 st = scanAux t tt fuel2 st := by
  intro fuel1
  induction fuel1 with
  | zero =>
    intro fuel2 st h1 h2
    cases fuel2 with
    | zero => rfl
    | succ f2 =>
      rw [scanAux_zero, scanAux_succ, if_neg (by omega)]
  | succ f1 ih =>
    intro fuel2 st h1 h2
    by_cases hti : st.text_index < t.length
    · cases fuel2 with
      | zero => exact absurd hti (by omega)
      | succ f2 =>
        rw [scanAux_succ, scanAux_succ, if_pos hti, if_pos hti]
        have hstep := scanStep_ti_lt t tt st
        exact ih f2 (scanStep t tt st) (by omega) (by omega)
    · cases fuel2 with
      | zero => rw [scanAux_succ, if_neg hti, scanAux_zero]
      | succ f2 => rw [scanAux_succ, scanAux_succ, if_neg hti, if_neg hti]

/-- One scanner step preserves agreement of the control fields (text index
and the two flags); the other fields never influence them. -/
theorem scanStep_ctrl (t : Str) (tt : TextType) (st st' : ScanState)
    (h1 : st.text_index = st'.text_index) (h2 : st.in_link_text = st'.in_link_text)
    (h3 : st.in_link_url = st'.in_link_url) :
    (scanStep t tt st).text_index = (scanStep t tt st').text_index ∧
    (scanStep t tt st).in_link_text = (scanStep t tt st').in_link_text ∧
    (scanStep t tt st).in_link_url = (scanStep t tt st').in_link_url := by
  unfold scanStep
  rw [h1, h2, h3]
  split_ifs <;> simp

/-- The raise flags after a scan depend only on the control fields of the
starting state. -/
theorem scanAux_erFlag_ctrl (t : Str) (tt : TextType) :
    ∀ fuel (st st' : ScanState), st.text_index = st'.text_index →
      st.in_link_text = st'.in_link_text → st.in_link_url = st'.in_link_url →
      erFlag (scanAux t tt fuel st) = erFlag (scanAux t tt fuel st') := by
  intro fuel
  induction fuel with
  | zero =>
    intro st st' h1 h2 h3
    rw [scanAux_zero, scanAux_zero, erFlag, erFlag, h2, h3]
  | succ fuel ih =>
    intro st st' h1 h2 h3
    rw [scanAux_succ, scanAux_succ, ← h1]
    by_cases hti : st.text_index < t.length
    · rw [if_pos hti, if_pos hti]
      obtain ⟨g1, g2, g3⟩ := scanStep_ctrl t tt st st' h1 h2 h3
      exact ih (scanStep t tt st) (scanStep t tt st') g1 g2 g3
    · rw [if_neg hti, if_neg hti, erFlag, erFlag, h2, h3]

/-- From the reading-label state the raise flags are determined by whether
a `]` occurs at or after the current index; if one does at `j`, scanning
resumes in the reading-url state at `j + 3`. -/
theorem erScan_label (t : Str) (tt : TextType) :
    ∀ fuel i, t.length ≤ i + fuel →
      erFlag (scanAux t tt fuel (stLabel i)) =
        match scanFind (fun j => decide (pyGet t j = ']')) t.length i with
        | none => true
        | some j => erFlag (scanAux t tt t.length (stUrl (j + 3))) := by
  intro fuel
  induction fuel with
  | zero =>
    intro i h
    rw [scanFind_none _ _ _ (by omega), scanAux_zero]
    rfl
  | succ fuel ih =>
    intro i h
    by_cases hti : i < t.length
    · rw [scanAux_succ, if_pos (show (stLabel i).text_index < t.length from hti),
        scanFind_step _ _ _ hti]
      by_cases hch : pyGet t i = ']'
      · rw [if_pos (show (fun j => decide (pyGet t j = ']')) i = true by simp [hch])]
        have g1 : (scanStep t tt (stLabel i)).text_index = i + 3 := by
          simp [scanStep, stLabel, hch]
        have g2 : (scanStep t tt (stLabel i)).in_link_text = false := by
          simp [scanStep, stLabel, hch]
        have g3 : (scanStep t tt (stLabel i)).in_link_url = true := by
          simp [scanStep, stLabel, hch]
        rw [scanAux_erFlag_ctrl t tt fuel (scanStep t tt (stLabel i)) (stUrl (i + 3)) g1 g2 g3]
        exact congrArg erFlag (scanAux_fuel_eq t tt fuel t.length (stUrl (i + 3))
          (by show t.length ≤ i + 3 + fuel; omega)
          (by show t.length ≤ i + 3 + t.length; omega))
      · rw [if_neg (show ¬((fun j => decide (pyGet t j = ']')) i = true) by simp [hch])]
        have g1 : (scanStep t tt (stLabel i)).text_index = i + 1 := by
          simp [scanStep, stLabel, hch]
        have g2 : (scanStep t tt (stLabel i)).in_link_text = true := by
          simp [scanStep, stLabel, hch]
        have g3 : (scanStep t tt (stLabel i)).in_link_url = false := by
          simp [scanStep, stLabel, hch]
        rw [scanAux_erFlag_ctrl t tt fuel (scanStep t tt (stLabel i)) (stLabel (i + 1)) g1 g2 g3]
        exact ih (i + 1) (by omega)
    · rw [scanFind_none _ _ _ (by omega), scanAux_succ,
        if_neg (show ¬((stLabel i).text_index < t.length) from hti)]
      rfl

/-- From the reading-url state the raise flags are determined by whether a
`)` occurs at or after the current index; if one does at `k`, scanning
resumes in the plain scanning state at `k + 1`. -/
theorem erScan_url (t : Str) (tt : TextType) :
    ∀ fuel i, t.length ≤ i + fuel →
      erFlag (scanAux t tt fuel (stUrl i)) =
        match scanFind (fun k => decide (pyGet t k = ')')) t.length i with
        | none => true
        | some k => erFlag (scanAux t tt t.length (stScan (k + 1))) := by
  intro fuel
  induction fuel with
  | zero =>
    intro i h
    rw [scanFind_none _ _ _ (by omega), scanAux_zero]
    rfl
  | succ fuel ih =>
    intro i h
    by_cases hti : i < t.length
    · rw [scanAux_succ, if_pos (show (stUrl i).text_index < t.length from hti),
        scanFind_step _ _ _ hti]
      by_cases hch : pyGet t i = ')'
      · rw [if_pos (show (fun k => decide (pyGet t k = ')')) i = true by simp [hch])]
        have g1 : (scanStep t tt (stUrl i)).text_index = i + 1 := by
          simp [scanStep, stUrl, hch]
        have g2 : (scanStep t tt (stUrl i)).in_link_text = false := by
          simp [scanStep, stUrl, hch]
        have g3 : (scanStep t tt (stUrl i)).in_link_url = false := by
          simp [scanStep, stUrl, hch]
        rw [scanAux_erFlag_ctrl t tt fuel (scanStep t tt (stUrl i)) (stScan (i + 1)) g1 g2 g3]
        exact congrArg erFlag (scanAux_fuel_eq t tt fuel t.length (stScan (i + 1))
          (by show t.length ≤ i + 1 + fuel; omega)
          (by show t.length ≤ i + 1 + t.length; omega))
      · rw [if_neg (show ¬((fun k => decide (pyGet t k = ')')) i = true) by simp [hch])]
        have g1 : (scanStep t tt (stUrl i)).text_index = i + 1 := by
          simp [scanStep, stUrl, hch]
        have g2 : (scanStep t tt (stUrl i)).in_link_text = false := by
          simp [scanStep, stUrl, hch]
        have g3 : (scanStep t tt (stUrl i)).in_link_url = true := by
          simp [scanStep, stUrl, hch]
        rw [scanAux_erFlag_ctrl t tt fuel (scanStep t tt (stUrl i)) (stUrl (i + 1)) g1 g2 g3]
        exact ih (i + 1) (by omega)
    · rw [scanFind_none _ _ _ (by omega), scanAux_succ,
        if_neg (show ¬((stUrl i).text_index < t.length) from hti)]
      rfl

/-- At an opener, the scanning state transitions to reading-label control
`(i + 2, true, false)`. -/
theorem scanStep_scan_open (t : Str) (tt : TextType) (i : Nat)
    (hopen : isOpenerAt tt t i = true) :
    (scanStep t tt (stScan i)).text_index = i + 2 ∧
    (scanStep t tt (stScan i)).in_link_text = true ∧
    (scanStep t tt (stScan i)).in_link_url = false := by
  unfold isOpenerAt at hopen
  by_cases hch : pyGet t i = '['
  · rw [if_pos hch] at hopen
    by_cases hlink : tt = .LINK_TEXT
    · subst hlink
      refine ⟨?_, ?_, ?_⟩ <;> simp [scanStep, stScan, hch]
    · rw [if_neg hlink] at hopen
      by_cases himg : tt = .IMAGE_TEXT
      · subst himg
        rw [if_pos rfl] at hopen
        refine ⟨?_, ?_, ?_⟩ <;> simp [scanStep, stScan, hch, hlink, hopen]
      · rw [if_neg himg] at hopen
        exact absurd hopen (by simp)
  · rw [if_neg hch] at hopen
    exact absurd hopen (by simp)

/-- At a non-opener, the scanning state just advances one position. -/
theorem scanStep_scan_noopen (t : Str) (tt : TextType) (i : Nat)
    (hopen : isOpenerAt tt t i = false) :
    scanStep t tt (stScan i) = stScan (i + 1) := by
  unfold isOpenerAt at hopen
  by_cases hch : pyGet t i = '['
  · rw [if_pos hch] at hopen
    by_cases hlink : tt = .LINK_TEXT
    · rw [if_pos hlink] at hopen
      exact absurd hopen (by simp)
    · by_cases himg : tt = .IMAGE_TEXT
      · rw [if_neg hlink, if_pos himg] at hopen
        subst himg
        simp [scanStep, stScan, hch, hlink, hopen]
      · rw [if_neg hlink, if_neg himg] at hopen
        simp [scanStep, stScan, hch, hlink, himg]
  · rw [if_neg hch] at hopen
    simp [scanStep, stScan, hch]

/-- From the scanning state the raise flags are determined by whether an
opener occurs at or after the current index; if one does at `p`, the scan
continues in the reading-label state at `p + 2`. -/
theorem erScan_scanning (t : Str) (tt : TextType) :
    ∀ fuel i, t.length ≤ i + fuel →
      erFlag (scanAux t tt fuel (stScan i)) =
        match scanFind (isOpenerAt tt t) t.length i with
        | none => false
        | some p => erFlag (scanAux t tt t.length (stLabel (p + 2))) := by
  intro fuel
  induction fuel with
  | zero =>
    intro i h
    rw [scanFind_none _ _ _ (by omega), scanAux_zero]
    rfl
  | succ fuel ih =>
    intro i h
    by_cases hti : i < t.length
    · rw [scanAux_succ, if_pos (show (stScan i).text_index < t.length from hti),
        scanFind_step _ _ _ hti]
      by_cases hopen : isOpenerAt tt t i = true
      · rw [if_pos hopen]
        obtain ⟨g1, g2, g3⟩ := scanStep_scan_open t tt i hopen
        rw [scanAux_erFlag_ctrl t tt fuel (scanStep t tt (stScan i)) (stLabel (i + 2)) g1 g2 g3]
        exact congrArg erFlag (scanAux_fuel_eq t tt fuel t.length (stLabel (i + 2))
          (by show t.length ≤ i + 2 + fuel; omega)
          (by show t.length ≤ i + 2 + t.length; omega))
      · rw [if_neg hopen, scanStep_scan_noopen t tt i (by simpa using hopen)]
        exact ih (i + 1) (by omega)
    · rw [scanFind_none _ _ _ (by omega), scanAux_succ,
        if_neg (show ¬((stScan i).text_index < t.length) from hti)]
      rfl

/-- Cases-ready corollaries of the three phase lemmas. -/
theorem erScan_label_none (t : Str) (tt : TextType) (fuel i : Nat)
    (hf : t.length ≤ i + fuel)
    (h : scanFind (fun j => decide (pyGet t j = ']')) t.length i = none) :
    erFlag (scanAux t tt fuel (stLabel i)) = true := by
  rw [erScan_label t tt fuel i hf, h]

theorem erScan_label_some (t : Str) (tt : TextType) (fuel i j : Nat)
    (hf : t.length ≤ i + fuel)
    (h : scanFind (fun j => decide (pyGet t j = ']')) t.length i = some j) :
    erFlag (scanAux t tt fuel (stLabel i)) =
      erFlag (scanAux t tt t.length (stUrl (j + 3))) := by
  rw [erScan_label t tt fuel i hf, h]

theorem erScan_url_none (t : Str) (tt : TextType) (fuel i : Nat)
    (hf : t.length ≤ i + fuel)
    (h : scanFind (fun k => decide (pyGet t k = ')')) t.length i = none) :
    erFlag (scanAux t tt fuel (stUrl i)) = true := by
  rw [erScan_url t tt fuel i hf, h]

theorem erScan_url_some (t : Str) (tt : TextType) (fuel i k : Nat)
    (hf : t.length ≤ i + fuel)
    (h : scanFind (fun k => decide (pyGet t k = ')')) t.length i = some k) :
    erFlag (scanAux t tt fuel (stUrl i)) =
      erFlag (scanAux t tt t.length (stScan (k + 1))) := by
  rw [erScan_url t tt fuel i hf, h]

theorem erScan_scanning_none (t : Str) (tt : TextType) (fuel i : Nat)
    (hf : t.length ≤ i + fuel)
    (h : scanFind (isOpenerAt tt t) t.length i = none) :
    erFlag (scanAux t tt fuel (stScan i)) = false := by
  rw [erScan_scanning t tt fuel i hf, h]

theorem erScan_scanning_some (t : Str) (tt : TextType) (fuel i p : Nat)
    (hf : t.length ≤ i + fuel)
    (h : scanFind (isOpenerAt tt t) t.length i = some p) :
    erFlag (scanAux t tt fuel (stScan i)) =
      erFlag (scanAux t tt t.length (stLabel (p + 2))) := by
  rw [erScan_scanning t tt fuel i hf, h]

theorem unterminatedFrom_succ (tt : TextType) (t : Str) (n i : Nat) :
    unterminatedFrom tt t (n + 1) i =
      match scanFind (isOpenerAt tt t) t.length i with
      | none => false
      | some p =>
        match scanFind (fun j => decide (pyGet t j = ']')) t.length (p + 2) with
        | none => true
        | some j =>
          match scanFind (fun k => decide (pyGet t k = ')')) t.length (j + 3) with
          | none => true
          | some k => unterminatedFrom tt t n (k + 1) := rfl

theorem unterminatedFrom_succ_none (tt : TextType) (t : Str) (n i : Nat)
    (hp : scanFind (isOpenerAt tt t) t.length i = none) :
    unterminatedFrom tt t (n + 1) i = false := by
  rw [unterminatedFrom_succ]
  simp only [hp]

theorem unterminatedFrom_succ_label_none (tt : TextType) (t : Str) (n i p : Nat)
    (hp : scanFind (isOpenerAt tt t) t.length i = some p)
    (hj : scanFind (fun j => decide (pyGet t j = ']')) t.length (p + 2) = none) :
    unterminatedFrom tt t (n + 1) i = true := by
  rw [unterminatedFrom_succ]
  simp only [hp, hj]

theorem unterminatedFrom_succ_url_none (tt : TextType) (t : Str) (n i p j : Nat)
    (hp : scanFind (isOpenerAt tt t) t.length i = some p)
    (hj : scanFind (fun j => decide (pyGet t j = ']')) t.length (p + 2) = some j)
    (hk : scanFind (fun k => decide (pyGet t k = ')')) t.length (j + 3) = none) :
    unterminatedFrom tt t (n + 1) i = true := by
  rw [unterminatedFrom_succ]
  simp only [hp, hj, hk]

theorem unterminatedFrom_succ_rec (tt : TextType) (t : Str) (n i p j k : Nat)
    (hp : scanFind (isOpenerAt tt t) t.length i = some p)
    (hj : scanFind (fun j => decide (pyGet t j = ']')) t.length (p + 2) = some j)
    (hk : scanFind (fun k => decide (pyGet t k = ')')) t.length (j + 3) = some k) :
    unterminatedFrom tt t (n + 1) i = unterminatedFrom tt t n (k + 1) := by
  rw [unterminatedFrom_succ]
  simp only [hp, hj, hk]

/-- The scanner's raise flags from a scanning state coincide with the
spec-side unterminated-opener predicate. -/
theorem erScan_unterminated (t : Str) (tt : TextType) :
    ∀ n i, t.length + 1 ≤ i + n →
      erFlag (scanAux t tt t.length (stScan i)) = unterminatedFrom tt t n i := by
  intro n
  induction n with
  | zero =>
    intro i h
    rw [erScan_scanning_none t tt t.length i (by omega) (scanFind_none _ _ _ (by omega))]
    rfl
  | succ n ih =>
    intro i h
    cases hp : scanFind (isOpenerAt tt t) t.length i with
    | none =>
      rw [erScan_scanning_none t tt t.length i (by omega) hp,
        unterminatedFrom_succ_none tt t n i hp]
    | some p =>
      rw [erScan_scanning_some t tt t.length i p (by omega) hp]
      cases hj : scanFind (fun j => decide (pyGet t j = ']')) t.length (p + 2) with
      | none =>
        rw [erScan_label_none t tt t.length (p + 2) (by omega) hj,
          unterminatedFrom_succ_label_none tt t n i p hp hj]
      | some j =>
        rw [erScan_label_some t tt t.length (p + 2) j (by omega) hj]
        cases hk : scanFind (fun k => decide (pyGet t k = ')')) t.length (j + 3) with
        | none =>
          rw [erScan_url_none t tt t.length (j + 3) (by omega) hk,
            unterminatedFrom_succ_url_none tt t n i p j hp hj hk]
        | some k =>
          rw [erScan_url_some t tt t.length (j + 3) k (by omega) hk,
            unterminatedFrom_succ_rec tt t n i p j k hp hj hk]
          have hip : i ≤ p := scanFind_ge _ _ _ _ hp
          have hpj : p + 2 ≤ j := scanFind_ge _ _ _ _ hj
          have hjk : j + 3 ≤ k := scanFind_ge _ _ _ _ hk
          exact ih (k + 1) (by omega)

/-- The raise flags of a full scan equal the unterminated-opener predicate. -/
theorem erFlag_runScan (t : Str) (tt : TextType) :
    erFlag (runScan t tt) = hasUnterminatedOpener tt t := by
  have h1 : runScan t tt = scanAux t tt t.length (stScan 0) := rfl
  rw [h1, hasUnterminatedOpener]
  exact erScan_unterminated t tt (t.length + 1) 0 (by omega)

/-- The single-node image/link scan only raises the malformed error. -/
theorem splitOne_error_eq (t : Str) (tt : TextType) (e : Err)
    (h : splitOneImageOrLink t tt = .error e) : e = .malformedLinkOrImage := by
  unfold splitOneImageOrLink splitOneFinish at h
  split_ifs at h
  injection h with h'
  exact h'.symm

/-- The single-node image/link scan raises exactly when the text has an
unterminated opener. -/
theorem splitOne_error_iff (t : Str) (tt : TextType) :
    splitOneImageOrLink t tt = .error .malformedLinkOrImage ↔
      hasUnterminatedOpener tt t = true := by
  unfold splitOneImageOrLink splitOneFinish
  rw [show ((runScan t tt).in_link_text || (runScan t tt).in_link_url) = erFlag (runScan t tt)
    from rfl]
  rw [erFlag_runScan]
  by_cases hu : hasUnterminatedOpener tt t = true
  · rw [if_pos hu]
    simp [hu]
  · rw [if_neg hu]
    simp [hu]

/-- The list-level image/link stage only raises the malformed error. -/
theorem split_image_error_eq (tt : TextType) :
    ∀ (l : List TextNode) (e : Err), split_image_or_link_nodes l tt = .error e →
      e = .malformedLinkOrImage := by
  intro l
  induction l with
  | nil =>
    intro e h
    exact absurd h (by simp [split_image_or_link_nodes])
  | cons node rest ih =>
    intro e h
    rw [split_image_or_link_nodes] at h
    by_cases hty : node.text_type ≠ .TEXT
    · rw [if_pos hty] at h
      cases hr : split_image_or_link_nodes rest tt with
      | error e2 =>
        simp only [hr] at h
        injection h with h'
        rw [← h']
        exact ih e2 hr
      | ok tail =>
        simp only [hr] at h
        simp at h
    · rw [if_neg hty] at h
      cases hs : splitOneImageOrLink node.text tt with
      | error e1 =>
        simp only [hs] at h
        injection h with h'
        rw [← h']
        exact splitOne_error_eq node.text tt e1 hs
      | ok cur =>
        simp only [hs] at h
        cases hr : split_image_or_link_nodes rest tt with
        | error e2 =>
          simp only [hr] at h
          injection h with h'
          rw [← h']
          exact ih e2 hr
        | ok tail =>
          simp only [hr] at h
          simp at h

/-- C2 amended: `split_image_or_link_nodes` raises `MalformedLinkOrImage`
iff some plain node's text, scanned left to right, has an opener (`[` for
links; `[` with a preceding `!` — cyclically, the LAST character when the
`[` is at index 0 — for images) with no `]` at index ≥ opener+2, or whose
first such `]` has no `)` at index ≥ `]`+3; the character right after `]`
is skipped without being compared with `(`. -/
theorem c2_malformed_iff :
    ∀ (old_nodes : List TextNode) (tt : TextType),
      split_image_or_link_nodes old_nodes tt = .error .malformedLinkOrImage ↔
        ∃ node ∈ old_nodes, node.text_type = .TEXT ∧
          hasUnterminatedOpener tt node.text = true := by
  intro l tt
  induction l with
  | nil => simp [split_image_or_link_nodes]
  | cons node rest ih =>
    rw [split_image_or_link_nodes]
    by_cases hty : node.text_type ≠ .TEXT
    · rw [if_pos hty]
      cases hr : split_image_or_link_nodes rest tt with
      | error e2 =>
        have he2 := split_image_error_eq tt rest e2 hr
        subst he2
        simp only []
        constructor
        · intro _
          obtain ⟨nd, hmem, hprop⟩ := ih.mp hr
          exact ⟨nd, List.mem_cons_of_mem _ hmem, hprop⟩
        · intro _
          trivial
      | ok tail =>
        simp only []
        constructor
        · intro hcontra
          exact absurd hcontra (by simp)
        · rintro ⟨nd, hmem, hprop⟩
          rcases List.mem_cons.mp hmem with hEq | hmem'
          · exact absurd hprop.1 (hEq ▸ hty)
          · have := ih.mpr ⟨nd, hmem', hprop⟩
            rw [hr] at this
            exact absurd this (by simp)
    · rw [if_neg hty]
      push_neg at hty
      cases hs : splitOneImageOrLink node.text tt with
      | error e1 =>
        have he1 := splitOne_error_eq node.text tt e1 hs
        subst he1
        simp only []
        constructor
        · intro _
          exact ⟨node, List.mem_cons_self _ _, hty, (splitOne_error_iff node.text tt).mp hs⟩
        · intro _
          trivial
      | ok cur =>
        cases hr : split_image_or_link_nodes rest tt with
        | error e2 =>
          have he2 := split_image_error_eq tt rest e2 hr
          subst he2
          simp only []
          constructor
          · intro _
            obtain ⟨nd, hmem, hprop⟩ := ih.mp hr
            exact ⟨nd, List.mem_cons_of_mem _ hmem, hprop⟩
          · intro _
            trivial
        | ok tail =>
          simp only []
          constructor
          · intro hcontra
            exact absurd hcontra (by simp)
          · rintro ⟨nd, hmem, hprop⟩
            rcases List.mem_cons.mp hmem with hEq | hmem'
            · have : splitOneImageOrLink node.text tt = .error .malformedLinkOrImage :=
                (splitOne_error_iff node.text tt).mpr (hEq ▸ hprop.2)
              rw [hs] at this
              exact absurd this (by simp)
            · have := ih.mpr ⟨nd, hmem', hprop⟩
              rw [hr] at this
              exact absurd this (by simp)

/-- Witness for C2's amended statement: an opener with no closing `]`. -/
theorem c2_malformed_iff_witness :
    split_image_or_link_nodes [⟨"[abc".toList, .TEXT, none⟩] .LINK_TEXT =
      .error .malformedLinkOrImage :=
  (c2_malformed_iff [⟨"[abc".toList, .TEXT, none⟩] .LINK_TEXT).mpr (by decide)
